import Mathlib

/-!
Verification of the io-pgtable layer contract
(include/linux/io-pgtable.h and its specification).

The header declares the data model (format enumeration, quirk bits,
configuration record, handle, TLB callback wrappers) directly; the
allocator and the per-format map/unmap/translate implementations are
declared but not present, so those operations are modelled from the
specification, as marked on each definition.
-/

namespace IoPgtableSpec

/-! ## Format enumeration (enum io_pgtable_fmt, io-pgtable.h lines 11-20) -/

/-- Values of the C enumerators of enum io_pgtable_fmt, in declaration
order, as the C standard assigns them (0, 1, ...). -/
def ARM_32_LPAE_S1 : Nat := 0

/-- Second enumerator of enum io_pgtable_fmt. -/
def ARM_32_LPAE_S2 : Nat := 1

/-- Third enumerator of enum io_pgtable_fmt. -/
def ARM_64_LPAE_S1 : Nat := 2

/-- Fourth enumerator of enum io_pgtable_fmt. -/
def ARM_64_LPAE_S2 : Nat := 3

/-- Fifth enumerator of enum io_pgtable_fmt. -/
def ARM_V7S : Nat := 4

/-- Final enumerator of enum io_pgtable_fmt: the count of real formats. -/
def IO_PGTABLE_NUM_FMTS : Nat := 5

/-- ARM_V8L_FAST is defined as ((unsigned int)-1): the value of the
int constant -1 converted to the 32-bit unsigned integer type. -/
def ARM_V8L_FAST : Nat := ((-1 : Int) % (2 ^ 32 : Int)).toNat

/-- The closed enumeration itself: one constructor per enumerator of
enum io_pgtable_fmt (IO_PGTABLE_NUM_FMTS is a count, not a format). -/
inductive io_pgtable_fmt : Type where
  | arm_32_lpae_s1
  | arm_32_lpae_s2
  | arm_64_lpae_s1
  | arm_64_lpae_s2
  | arm_v7s
deriving DecidableEq

/-- The numeric value of each tag of the closed enumeration. -/
def io_pgtable_fmt.val : io_pgtable_fmt → Nat
  | .arm_32_lpae_s1 => ARM_32_LPAE_S1
  | .arm_32_lpae_s2 => ARM_32_LPAE_S2
  | .arm_64_lpae_s1 => ARM_64_LPAE_S1
  | .arm_64_lpae_s2 => ARM_64_LPAE_S2
  | .arm_v7s => ARM_V7S

/-! ## Quirk bits (io-pgtable.h lines 101-108) -/

/-- BIT(0) -/
def IO_PGTABLE_QUIRK_ARM_NS : Nat := 2 ^ 0

/-- BIT(1) -/
def IO_PGTABLE_QUIRK_NO_PERMS : Nat := 2 ^ 1

/-- BIT(2) -/
def IO_PGTABLE_QUIRK_TLBI_ON_MAP : Nat := 2 ^ 2

/-- BIT(3) -/
def IO_PGTABLE_QUIRK_ARM_MTK_4GB : Nat := 2 ^ 3

/-- BIT(4) -/
def IO_PGTABLE_QUIRK_NO_DMA : Nat := 2 ^ 4

/-- BIT(5) -/
def IO_PGTABLE_QUIRK_QSMMUV500_NON_SHAREABLE : Nat := 2 ^ 5

/-- BIT(6) -/
def IO_PGTABLE_QUIRK_QCOM_USE_UPSTREAM_HINT : Nat := 2 ^ 6

/-- BIT(7) -/
def IO_PGTABLE_QUIRK_QCOM_USE_LLC_NWA : Nat := 2 ^ 7

/-- Claim C9: the format-tag enumeration is a closed set of exactly five
tags numbered 0 through 4, IO_PGTABLE_NUM_FMTS equals 5, and ARM_V8L_FAST,
defined as (unsigned int)-1, equals 2^32 - 1, lies outside
[0, IO_PGTABLE_NUM_FMTS), and is distinct from every enumerated tag. -/
theorem fmt_enum_closed_and_fast_sentinel :
    ARM_32_LPAE_S1 = 0 ∧ ARM_32_LPAE_S2 = 1 ∧ ARM_64_LPAE_S1 = 2 ∧
    ARM_64_LPAE_S2 = 3 ∧ ARM_V7S = 4 ∧ IO_PGTABLE_NUM_FMTS = 5 ∧
    ARM_V8L_FAST = 2 ^ 32 - 1 ∧
    ¬ ARM_V8L_FAST < IO_PGTABLE_NUM_FMTS ∧
    (∀ f : io_pgtable_fmt, f.val < IO_PGTABLE_NUM_FMTS) ∧
    (∀ f : io_pgtable_fmt, f.val ≠ ARM_V8L_FAST) ∧
    (∀ f g : io_pgtable_fmt, f.val = g.val → f = g) := by
  refine ⟨rfl, rfl, rfl, rfl, rfl, rfl, by decide, by decide, ?_, ?_, ?_⟩
  · intro f; cases f <;> decide
  · intro f; cases f <;> decide
  · intro f g h; cases f <;> cases g <;> first | rfl | exact absurd h (by decide)

/-- Concrete instantiation of fmt_enum_closed_and_fast_sentinel: the
64-bit stage-1 tag lies inside the enumeration range, differs from the
fast sentinel, and the tag-value map is injective at it. -/
theorem fmt_enum_closed_and_fast_sentinel_witness :
    io_pgtable_fmt.arm_64_lpae_s1.val < IO_PGTABLE_NUM_FMTS ∧
    io_pgtable_fmt.arm_64_lpae_s1.val ≠ ARM_V8L_FAST ∧
    io_pgtable_fmt.arm_64_lpae_s1 = io_pgtable_fmt.arm_64_lpae_s1 := by
  have h := fmt_enum_closed_and_fast_sentinel
  exact ⟨h.2.2.2.2.2.2.2.2.1 io_pgtable_fmt.arm_64_lpae_s1,
    h.2.2.2.2.2.2.2.2.2.1 io_pgtable_fmt.arm_64_lpae_s1,
    h.2.2.2.2.2.2.2.2.2.2 io_pgtable_fmt.arm_64_lpae_s1 io_pgtable_fmt.arm_64_lpae_s1 rfl⟩

/-! ## Configuration record (struct io_pgtable_cfg, io-pgtable.h lines 60-145) -/

/-- Stage-1 long-descriptor payload variant (arm_lpae_s1_cfg):
two translation-table base registers, a translation-control register and
two memory-attribute registers, all 64-bit values. -/
structure arm_lpae_s1_cfg_t where
  ttbr0 : Nat
  ttbr1 : Nat
  tcr : Nat
  mair0 : Nat
  mair1 : Nat
deriving DecidableEq

/-- Stage-2 long-descriptor payload variant (arm_lpae_s2_cfg). -/
structure arm_lpae_s2_cfg_t where
  vttbr : Nat
  vtcr : Nat
deriving DecidableEq

/-- Short-descriptor payload variant (arm_v7s_cfg), 32-bit registers. -/
structure arm_v7s_cfg_t where
  ttbr0 : Nat
  ttbr1 : Nat
  tcr : Nat
  nmrr : Nat
  prrr : Nat
deriving DecidableEq

/-- Fast-variant payload (av8l_fast_cfg): stage-1 registers plus a
pointer to externally managed descriptor storage (pmds), modelled as an
address. -/
structure av8l_fast_cfg_t where
  ttbr0 : Nat
  ttbr1 : Nat
  tcr : Nat
  mair0 : Nat
  mair1 : Nat
  pmds : Nat
deriving DecidableEq

/-- The anonymous union at the end of struct io_pgtable_cfg: exactly one
variant is active (meaningful) at a time, so it embeds as a sum type with
one constructor per union member, named after the member. -/
inductive fmt_payload : Type where
  | arm_lpae_s1_cfg (c : arm_lpae_s1_cfg_t)
  | arm_lpae_s2_cfg (c : arm_lpae_s2_cfg_t)
  | arm_v7s_cfg (c : arm_v7s_cfg_t)
  | av8l_fast_cfg (c : av8l_fast_cfg_t)
deriving DecidableEq

/-- struct io_pgtable_cfg. The tlb member is a pointer to a constant
iommu_gather_ops callback table; the wrappers below only test it for null
and invoke its members, so it embeds as an Option (null = none); the
invocations themselves are recorded as events (tlb_call below).
iommu_dev is an opaque pointer, modelled as an address. -/
structure io_pgtable_cfg where
  quirks : Nat
  pgsize_bitmap : Nat
  ias : Nat
  oas : Nat
  tlb : Option Unit
  iommu_dev : Nat
  iova_base : Nat
  iova_end : Nat
  payload : fmt_payload
deriving DecidableEq

/-! ## Handle (struct io_pgtable, io-pgtable.h lines 217-222) -/

/-- struct io_pgtable: format tag, opaque cookie, an owned by-value copy
of the configuration (the C member is `struct io_pgtable_cfg cfg`, not a
pointer), and the operation set bound at allocation. The ops member holds
function pointers installed by the format allocator; it embeds as the tag
of the format whose implementations were installed (none before any were). -/
structure io_pgtable where
  fmt : Nat
  cookie : Nat
  cfg : io_pgtable_cfg
  ops : Option Nat
deriving DecidableEq

/-! ## TLB wrapper helpers (io-pgtable.h lines 226-246) -/

/-- One invocation of a member of the iommu_gather_ops callback table,
with the arguments passed to it. -/
inductive tlb_call : Type where
  | tlb_flush_all (cookie : Nat)
  | tlb_add_flush (iova : Nat) (size : Nat) (granule : Nat) (leaf : Bool) (cookie : Nat)
  | tlb_sync (cookie : Nat)
deriving DecidableEq

/-- io_pgtable_tlb_flush_all: if iop->cfg.tlb is null, return without
calling anything; otherwise call iop->cfg.tlb->tlb_flush_all(iop->cookie).
The returned list is the sequence of callback invocations performed. -/
def io_pgtable_tlb_flush_all (iop : io_pgtable) : List tlb_call :=
  match iop.cfg.tlb with
  | none => []
  | some _ => [tlb_call.tlb_flush_all iop.cookie]

/-- io_pgtable_tlb_add_flush: if iop->cfg.tlb is null, return without
calling anything; otherwise call
iop->cfg.tlb->tlb_add_flush(iova, size, granule, leaf, iop->cookie). -/
def io_pgtable_tlb_add_flush (iop : io_pgtable) (iova size granule : Nat)
    (leaf : Bool) : List tlb_call :=
  match iop.cfg.tlb with
  | none => []
  | some _ => [tlb_call.tlb_add_flush iova size granule leaf iop.cookie]

/-- io_pgtable_tlb_sync: if iop->cfg.tlb is null, return without calling
anything; otherwise call iop->cfg.tlb->tlb_sync(iop->cookie). -/
def io_pgtable_tlb_sync (iop : io_pgtable) : List tlb_call :=
  match iop.cfg.tlb with
  | none => []
  | some _ => [tlb_call.tlb_sync iop.cookie]

/-- Claim C6: each wrapper invokes the corresponding configured callback
exactly once when cfg.tlb is non-null, passing the handle's cookie
verbatim and, for add_flush, forwarding iova, size, granule and leaf
unchanged; and invokes no callback at all when cfg.tlb is null. -/
theorem tlb_wrappers_dispatch (iop : io_pgtable) (iova size granule : Nat)
    (leaf : Bool) :
    (iop.cfg.tlb ≠ none →
      io_pgtable_tlb_flush_all iop = [tlb_call.tlb_flush_all iop.cookie] ∧
      io_pgtable_tlb_add_flush iop iova size granule leaf =
        [tlb_call.tlb_add_flush iova size granule leaf iop.cookie] ∧
      io_pgtable_tlb_sync iop = [tlb_call.tlb_sync iop.cookie]) ∧
    (iop.cfg.tlb = none →
      io_pgtable_tlb_flush_all iop = [] ∧
      io_pgtable_tlb_add_flush iop iova size granule leaf = [] ∧
      io_pgtable_tlb_sync iop = []) := by
  unfold io_pgtable_tlb_flush_all io_pgtable_tlb_add_flush io_pgtable_tlb_sync
  cases h : iop.cfg.tlb with
  | none => exact ⟨fun hc => absurd rfl hc, fun _ => ⟨rfl, rfl, rfl⟩⟩
  | some u => exact ⟨fun _ => ⟨rfl, rfl, rfl⟩, fun hc => Option.noConfusion hc⟩

/-- A concrete configuration used to exercise the theorems on concrete
inputs: callback table present, no quirks. -/
def sample_cfg : io_pgtable_cfg :=
  { quirks := 0, pgsize_bitmap := 4096, ias := 32, oas := 32,
    tlb := some (), iommu_dev := 0, iova_base := 0, iova_end := 0,
    payload := fmt_payload.arm_lpae_s1_cfg ⟨0, 0, 0, 0, 0⟩ }

/-- A concrete handle over sample_cfg. -/
def sample_iop : io_pgtable :=
  { fmt := ARM_64_LPAE_S1, cookie := 77, cfg := sample_cfg, ops := some ARM_64_LPAE_S1 }

/-- The same handle with a null callback table. -/
def sample_iop_no_tlb : io_pgtable :=
  { fmt := ARM_64_LPAE_S1, cookie := 77,
    cfg := { sample_cfg with tlb := none }, ops := some ARM_64_LPAE_S1 }

/-- Concrete instantiation of tlb_wrappers_dispatch: on a handle whose
callback table is present, each wrapper performs exactly its one call with
the cookie 77 forwarded verbatim; with a null callback table, none is
invoked. -/
theorem tlb_wrappers_dispatch_witness :
    (io_pgtable_tlb_flush_all sample_iop = [tlb_call.tlb_flush_all 77] ∧
     io_pgtable_tlb_add_flush sample_iop 4096 8192 4096 true =
       [tlb_call.tlb_add_flush 4096 8192 4096 true 77] ∧
     io_pgtable_tlb_sync sample_iop = [tlb_call.tlb_sync 77]) ∧
    (io_pgtable_tlb_flush_all sample_iop_no_tlb = [] ∧
     io_pgtable_tlb_add_flush sample_iop_no_tlb 4096 8192 4096 true = [] ∧
     io_pgtable_tlb_sync sample_iop_no_tlb = []) :=
  ⟨(tlb_wrappers_dispatch sample_iop 4096 8192 4096 true).1 (by decide),
   (tlb_wrappers_dispatch sample_iop_no_tlb 4096 8192 4096 true).2 (by decide)⟩

/-! ## Reference format implementation

The concrete per-format table-walking code (io-pgtable-arm.c and friends)
is registered against this header but is not part of it, so the operation
set is modelled from the specification: a single-granule page table holding
one entry per granule-aligned iova page. -/

/-- Modelled from the spec: the page-table memory of one table hierarchy,
as an association list from granule-aligned iova to the physical address
mapped there (the missing per-format table-walking code maintains the same
partial map through hardware descriptors). -/
abbrev pgtable_mem := List (Nat × Nat)

/-- Look up the entry for a (granule-aligned) iova page. -/
def pt_lookup (t : pgtable_mem) (k : Nat) : Option Nat :=
  match t with
  | [] => none
  | (k2, v) :: rest => if k = k2 then some v else pt_lookup rest k

/-- Install an entry for a page (a page-table memory write). -/
def pt_insert (t : pgtable_mem) (k v : Nat) : pgtable_mem :=
  (k, v) :: t

/-- Clear the entry for a page (a page-table memory write that removes a
translation). -/
def pt_remove (t : pgtable_mem) (k : Nat) : pgtable_mem :=
  match t with
  | [] => []
  | (k2, v) :: rest => if k = k2 then pt_remove rest k else (k2, v) :: pt_remove rest k

/-- One observable step a format implementation takes while executing an
operation: a page-table memory write clearing the entry at an iova, a
tlb_add_flush callback invocation, or a tlb_sync callback invocation. -/
inductive pt_event : Type where
  | pt_write (iova : Nat)
  | add_flush (iova : Nat) (size : Nat) (granule : Nat) (leaf : Bool)
  | sync
deriving DecidableEq

/-- True exactly on add_flush events. -/
def pt_event.is_add_flush : pt_event → Bool
  | .add_flush _ _ _ _ => true
  | _ => false

/-- True exactly on sync events. -/
def pt_event.is_sync : pt_event → Bool
  | .sync => true
  | _ => false

/-- Modelled from the spec: map n granule-sized pages starting at iova to
consecutive physical pages starting at paddr. An already-present entry is
an error (-EEXIST = -17), with no partial success reported. -/
def map_pages (g : Nat) (t : pgtable_mem) (iova paddr : Nat) : Nat → Except Int pgtable_mem
  | 0 => Except.ok t
  | Nat.succ n =>
    match pt_lookup t iova with
    | some _ => Except.error (-17)
    | none => map_pages g (pt_insert t iova paddr) (iova + g) (paddr + g) n

/-- Modelled from the spec: unmap up to n pages starting at iova, stopping
at the first page that is not mapped. Returns the byte count actually
removed, the new table, and the trace of page-table writes and add_flush
callbacks issued (one per removed page, write first). -/
def unmap_pages (g : Nat) (t : pgtable_mem) (iova : Nat) : Nat → Nat × pgtable_mem × List pt_event
  | 0 => (0, t, [])
  | Nat.succ n =>
    match pt_lookup t iova with
    | none => (0, t, [])
    | some _ =>
      let r := unmap_pages g (pt_remove t iova) (iova + g) n
      (g + r.1, r.2.1, pt_event.pt_write iova :: pt_event.add_flush iova g g true :: r.2.2)

/-- Modelled from the spec: the map operation of the operation set.
Alignment of iova, paddr and size to the granule is validated up front;
a violation is an error (-EINVAL = -22), never a partial success. -/
def pt_map (g : Nat) (t : pgtable_mem) (iova paddr size prot : Nat) : Except Int pgtable_mem :=
  if g = 0 then Except.error (-22)
  else if iova % g = 0 ∧ paddr % g = 0 ∧ size % g = 0 ∧ size ≠ 0 then
    map_pages g t iova paddr (size / g)
  else Except.error (-22)

/-- Modelled from the spec: the unmap operation of the operation set.
On an aligned request it removes pages until the first unmapped page,
issuing the page-table write and add_flush for each, then exactly one
terminating sync before returning the byte count removed. A misaligned
request is rejected with no state change and no callbacks. -/
def pt_unmap (g : Nat) (t : pgtable_mem) (iova size : Nat) : Nat × pgtable_mem × List pt_event :=
  if g = 0 then (0, t, [])
  else if iova % g = 0 ∧ size % g = 0 ∧ size ≠ 0 then
    let r := unmap_pages g t iova (size / g)
    (r.1, r.2.1, r.2.2 ++ [pt_event.sync])
  else (0, t, [])

/-- Modelled from the spec: iova_to_phys walks the current table: it reads
the entry of the page containing iova and adds the offset of iova within
the page; an absent entry reports not-mapped (none). -/
def pt_iova_to_phys (g : Nat) (t : pgtable_mem) (iova : Nat) : Option Nat :=
  match pt_lookup t (g * (iova / g)) with
  | some paddr => some (paddr + iova % g)
  | none => none

/-- Modelled from the spec: map together with the invalidation trace it
issues. Under IO_PGTABLE_QUIRK_TLBI_ON_MAP a successful map performs the
same invalidation sequence as unmap (add_flush then one terminating sync)
before returning; otherwise map issues no callbacks. -/
def pt_map_trace (g quirks : Nat) (t : pgtable_mem) (iova paddr size prot : Nat) :
    Except Int pgtable_mem × List pt_event :=
  match pt_map g t iova paddr size prot with
  | Except.error e => (Except.error e, [])
  | Except.ok t2 =>
    if quirks &&& IO_PGTABLE_QUIRK_TLBI_ON_MAP ≠ 0 then
      (Except.ok t2, [pt_event.add_flush iova size g false, pt_event.sync])
    else (Except.ok t2, [])

/-- Modelled from the spec: map_sg maps each scatter-list segment
(physical address, length) at consecutive iova offsets. On failure of a
segment it stops: the return value is the (negative) error, the table
keeps the already-mapped segments (no rollback), and the third component
is the out-parameter *size, the byte count of the completed segments. On
success the return value is the total byte count mapped. -/
def map_sg (g : Nat) (t : pgtable_mem) (iova prot : Nat) :
    List (Nat × Nat) → Int × pgtable_mem × Nat
  | [] => (0, t, 0)
  | (paddr, len) :: rest =>
    match pt_map g t iova paddr len prot with
    | Except.error e => (e, t, 0)
    | Except.ok t2 =>
      let r := map_sg g t2 (iova + len) prot rest
      if r.1 < 0 then (r.1, r.2.1, len + r.2.2) else (r.1 + len, r.2.1, len + r.2.2)

/-- Run the maps of a sequence of scatter-list segments, all of which must
succeed; used to name the state reached after a successful prefix of a
scatter list. -/
def map_segs_ok (g : Nat) (t : pgtable_mem) (iova prot : Nat) :
    List (Nat × Nat) → Option pgtable_mem
  | [] => some t
  | (paddr, len) :: rest =>
    match pt_map g t iova paddr len prot with
    | Except.error _ => none
    | Except.ok t2 => map_segs_ok g t2 (iova + len) prot rest

/-- The (iova, physical address, length) triple of each scatter-list
segment when the list is laid out at consecutive iova offsets. -/
def seg_positions (iova : Nat) : List (Nat × Nat) → List (Nat × Nat × Nat)
  | [] => []
  | (paddr, len) :: rest => (iova, paddr, len) :: seg_positions (iova + len) rest

/-- Total byte length of a scatter list. -/
def sum_lens : List (Nat × Nat) → Nat
  | [] => 0
  | s :: rest => s.2 + sum_lens rest

/-! ## Helper lemmas about the reference implementation -/

/-- Looking up after an insert: the inserted key reads back the new value,
every other key is unchanged. -/
theorem pt_lookup_insert (t : pgtable_mem) (k v k2 : Nat) :
    pt_lookup (pt_insert t k v) k2 = if k2 = k then some v else pt_lookup t k2 := by
  simp [pt_insert, pt_lookup]

/-- Looking up after a remove: the removed key reads none, every other key
is unchanged. -/
theorem pt_lookup_remove (t : pgtable_mem) (k k2 : Nat) :
    pt_lookup (pt_remove t k) k2 = if k2 = k then none else pt_lookup t k2 := by
  induction t with
  | nil => simp [pt_remove, pt_lookup]
  | cons hd rest ih =>
    obtain ⟨k3, v⟩ := hd
    by_cases h3 : k = k3
    · subst h3
      by_cases h2 : k2 = k
      · subst h2
        simp [pt_remove, pt_lookup, ih]
      · simp [pt_remove, pt_lookup, h2, ih]
    · by_cases h2 : k2 = k3
      · subst h2
        simp [pt_remove, pt_lookup, h3, Ne.symm h3]
      · simp [pt_remove, pt_lookup, h3, h2, ih]

/-- map_pages never disturbs an entry that is already present. -/
theorem map_pages_preserves_some (g : Nat) (n : Nat) :
    ∀ t iova paddr t2 k v, pt_lookup t k = some v →
      map_pages g t iova paddr n = Except.ok t2 → pt_lookup t2 k = some v := by
  induction n with
  | zero =>
    intro t iova paddr t2 k v hk hm
    cases hm
    exact hk
  | succ n ih =>
    intro t iova paddr t2 k v hk hm
    unfold map_pages at hm
    cases hl : pt_lookup t iova with
    | some w => rw [hl] at hm; cases hm
    | none =>
      rw [hl] at hm
      refine ih (pt_insert t iova paddr) (iova + g) (paddr + g) t2 k v ?_ hm
      rw [pt_lookup_insert]
      have hkne : k ≠ iova := fun he => by rw [he, hl] at hk; cases hk
      simp [hkne, hk]

/-- After a successful map_pages, every page of the mapped range reads
back its physical page. -/
theorem map_pages_region (g : Nat) (n : Nat) :
    ∀ t iova paddr t2, map_pages g t iova paddr n = Except.ok t2 →
      ∀ i, i < n → pt_lookup t2 (iova + g * i) = some (paddr + g * i) := by
  induction n with
  | zero => intro t iova paddr t2 _ i hi; omega
  | succ n ih =>
    intro t iova paddr t2 hm i hi
    unfold map_pages at hm
    cases hl : pt_lookup t iova with
    | some w => rw [hl] at hm; cases hm
    | none =>
      rw [hl] at hm
      cases i with
      | zero =>
        simp only [Nat.mul_zero, Nat.add_zero]
        refine map_pages_preserves_some g n (pt_insert t iova paddr) (iova + g)
          (paddr + g) t2 iova paddr ?_ hm
        rw [pt_lookup_insert]
        simp
      | succ j =>
        have hj := ih (pt_insert t iova paddr) (iova + g) (paddr + g) t2 hm j (by omega)
        have h1 : iova + g + g * j = iova + g * (j + 1) := by ring
        have h2 : paddr + g + g * j = paddr + g * (j + 1) := by ring
        rw [h1, h2] at hj
        exact hj

/-- unmap_pages never creates an entry: a key reading none keeps reading
none. -/
theorem unmap_pages_preserves_none (g : Nat) (n : Nat) :
    ∀ t iova k, pt_lookup t k = none →
      pt_lookup (unmap_pages g t iova n).2.1 k = none := by
  induction n with
  | zero => intro t iova k hk; simpa [unmap_pages] using hk
  | succ n ih =>
    intro t iova k hk
    unfold unmap_pages
    cases hl : pt_lookup t iova with
    | none => simpa using hk
    | some w =>
      simp only []
      refine ih (pt_remove t iova) (iova + g) k ?_
      rw [pt_lookup_remove]
      simp [hk]

/-- Over a range whose n pages are all mapped, unmap_pages removes all of
them and counts exactly g * n bytes. -/
theorem unmap_pages_bytes (g : Nat) (hg : 0 < g) (n : Nat) :
    ∀ t iova paddr,
      (∀ i, i < n → pt_lookup t (iova + g * i) = some (paddr + g * i)) →
      (unmap_pages g t iova n).1 = g * n := by
  induction n with
  | zero => intro t iova paddr _; simp [unmap_pages]
  | succ n ih =>
    intro t iova paddr hreg
    have h0 : pt_lookup t iova = some paddr := by
      have := hreg 0 (by omega)
      simpa using this
    unfold unmap_pages
    rw [h0]
    simp only []
    have hrec : (unmap_pages g (pt_remove t iova) (iova + g) n).1 = g * n := by
      refine ih (pt_remove t iova) (iova + g) (paddr + g) ?_
      intro i hi
      rw [pt_lookup_remove]
      have hne : iova + g + g * i ≠ iova := by omega
      have := hreg (i + 1) (by omega)
      have h1 : iova + g * (i + 1) = iova + g + g * i := by ring
      have h2 : paddr + g * (i + 1) = paddr + g + g * i := by ring
      rw [h1, h2] at this
      simp [hne, this]
    rw [hrec]
    ring

/-- When the first page of the range is mapped and the range is nonempty,
unmap_pages clears the entry at the starting iova. -/
theorem unmap_pages_clears_start (g : Nat) (n : Nat) (t : pgtable_mem)
    (iova paddr : Nat) (hn : n ≠ 0) (h0 : pt_lookup t iova = some paddr) :
    pt_lookup (unmap_pages g t iova n).2.1 iova = none := by
  cases n with
  | zero => exact absurd rfl hn
  | succ m =>
    unfold unmap_pages
    rw [h0]
    simp only []
    refine unmap_pages_preserves_none g m (pt_remove t iova) (iova + g) iova ?_
    rw [pt_lookup_remove]
    simp

/-- The trace of unmap_pages contains only page-table writes and
add_flush events, never a sync. -/
theorem unmap_pages_no_sync (g : Nat) (n : Nat) :
    ∀ t iova e, e ∈ (unmap_pages g t iova n).2.2 → pt_event.is_sync e = false := by
  induction n with
  | zero => intro t iova e he; simp [unmap_pages] at he
  | succ n ih =>
    intro t iova e he
    unfold unmap_pages at he
    cases hl : pt_lookup t iova with
    | none => rw [hl] at he; simp at he
    | some w =>
      rw [hl] at he
      simp only [List.mem_cons] at he
      rcases he with h | h | h
      · rw [h]; rfl
      · rw [h]; rfl
      · exact ih (pt_remove t iova) (iova + g) e h

/-- When the first page of the range is mapped and the range is nonempty,
the trace of unmap_pages contains an add_flush event. -/
theorem unmap_pages_has_flush (g : Nat) (n : Nat) (t : pgtable_mem)
    (iova paddr : Nat) (hn : n ≠ 0) (h0 : pt_lookup t iova = some paddr) :
    ∃ e ∈ (unmap_pages g t iova n).2.2, pt_event.is_add_flush e = true := by
  cases n with
  | zero => exact absurd rfl hn
  | succ m =>
    refine ⟨pt_event.add_flush iova g g true, ?_, rfl⟩
    unfold unmap_pages
    rw [h0]
    simp

/-- map_pages reports only the negative error -17. -/
theorem map_pages_error_neg (g : Nat) (n : Nat) :
    ∀ t iova paddr e, map_pages g t iova paddr n = Except.error e → e < 0 := by
  induction n with
  | zero => intro t iova paddr e h; cases h
  | succ n ih =>
    intro t iova paddr e h
    unfold map_pages at h
    cases hl : pt_lookup t iova with
    | some w =>
      rw [hl] at h
      cases h
      decide
    | none =>
      rw [hl] at h
      exact ih (pt_insert t iova paddr) (iova + g) (paddr + g) e h

/-- pt_map reports only negative error values. -/
theorem pt_map_error_neg (g : Nat) (t : pgtable_mem) (iova paddr size prot : Nat)
    (e : Int) (h : pt_map g t iova paddr size prot = Except.error e) : e < 0 := by
  unfold pt_map at h
  split_ifs at h with h1 h2
  · cases h; decide
  · exact map_pages_error_neg g (size / g) t iova paddr e h
  · cases h; decide

/-! ## Claims about the operation set -/

/-- Claim C1: for every call to unmap (on an aligned, nonempty range whose
first page is mapped), all page-table writes removing translations and one
or more add_flush callbacks are issued strictly before the single
terminating sync callback, which is the last event before unmap returns;
and under IO_PGTABLE_QUIRK_TLBI_ON_MAP a successful map shows the same
add_flush-then-terminating-sync pattern before returning. -/
theorem unmap_invalidation_ordering :
    (∀ g t iova size paddr, 0 < g → iova % g = 0 → size % g = 0 → size ≠ 0 →
      pt_lookup t iova = some paddr →
      ∃ pre, (pt_unmap g t iova size).2.2 = pre ++ [pt_event.sync] ∧
        (∀ e ∈ pre, pt_event.is_sync e = false) ∧
        ∃ e ∈ pre, pt_event.is_add_flush e = true) ∧
    (∀ g quirks t iova paddr size prot t2,
      quirks &&& IO_PGTABLE_QUIRK_TLBI_ON_MAP ≠ 0 →
      (pt_map_trace g quirks t iova paddr size prot).1 = Except.ok t2 →
      ∃ pre, (pt_map_trace g quirks t iova paddr size prot).2 = pre ++ [pt_event.sync] ∧
        (∀ e ∈ pre, pt_event.is_sync e = false) ∧
        ∃ e ∈ pre, pt_event.is_add_flush e = true) := by
  constructor
  · intro g t iova size paddr hg hi hs hnz hmapped
    have hgne : ¬ g = 0 := by omega
    have hn : size / g ≠ 0 := by
      intro h0
      have hd : g * (size / g) = size := Nat.mul_div_cancel' (Nat.dvd_of_mod_eq_zero hs)
      rw [h0, Nat.mul_zero] at hd
      exact hnz hd.symm
    refine ⟨(unmap_pages g t iova (size / g)).2.2, ?_, ?_, ?_⟩
    · simp [pt_unmap, hgne, hi, hs, hnz]
    · exact fun e he => unmap_pages_no_sync g (size / g) t iova e he
    · exact unmap_pages_has_flush g (size / g) t iova paddr hn hmapped
  · intro g quirks t iova paddr size prot t2 hq hok
    unfold pt_map_trace at hok ⊢
    cases hm : pt_map g t iova paddr size prot with
    | error e => rw [hm] at hok; cases hok
    | ok t3 =>
      refine ⟨[pt_event.add_flush iova size g false], ?_, by simp [pt_event.is_sync],
        ⟨pt_event.add_flush iova size g false, by simp, rfl⟩⟩
      simp [hq]

/-- Concrete instantiation of unmap_invalidation_ordering: unmapping one
mapped 4 KiB page yields a trace ending in the single sync, preceded by an
add_flush; and under IO_PGTABLE_QUIRK_TLBI_ON_MAP a successful map shows
the same pattern. -/
theorem unmap_invalidation_ordering_witness :
    (∃ pre, (pt_unmap 4096 [(4096, 8192)] 4096 4096).2.2 = pre ++ [pt_event.sync] ∧
      (∀ e ∈ pre, pt_event.is_sync e = false) ∧
      ∃ e ∈ pre, pt_event.is_add_flush e = true) ∧
    (∃ pre, (pt_map_trace 4096 4 [] 4096 8192 4096 0).2 = pre ++ [pt_event.sync] ∧
      (∀ e ∈ pre, pt_event.is_sync e = false) ∧
      ∃ e ∈ pre, pt_event.is_add_flush e = true) :=
  ⟨unmap_invalidation_ordering.1 4096 [(4096, 8192)] 4096 4096 8192 (by decide)
    (by decide) (by decide) (by decide) (by decide),
   unmap_invalidation_ordering.2 4096 4 [] 4096 8192 4096 0 [(4096, 8192)]
    (by decide) (by rfl)⟩

/-- Claim C3: a granule-aligned map accepted by the implementation,
followed by an unmap of the identical range, reports bytes_unmapped
exactly equal to size, and a subsequent iova_to_phys of the starting iova
reports not-mapped. -/
theorem map_unmap_roundtrip (g : Nat) (t : pgtable_mem) (iova paddr size prot : Nat)
    (t2 : pgtable_mem) (hmap : pt_map g t iova paddr size prot = Except.ok t2) :
    (pt_unmap g t2 iova size).1 = size ∧
    pt_iova_to_phys g (pt_unmap g t2 iova size).2.1 iova = none := by
  unfold pt_map at hmap
  by_cases h1 : g = 0
  · rw [if_pos h1] at hmap
    cases hmap
  by_cases h2 : iova % g = 0 ∧ paddr % g = 0 ∧ size % g = 0 ∧ size ≠ 0
  · rw [if_neg h1, if_pos h2] at hmap
    obtain ⟨hi, hp, hs, hnz⟩ := h2
    have hg : 0 < g := by omega
    have hd : g * (size / g) = size := Nat.mul_div_cancel' (Nat.dvd_of_mod_eq_zero hs)
    have hn : size / g ≠ 0 := by
      intro h0
      rw [h0, Nat.mul_zero] at hd
      exact hnz hd.symm
    have hreg := map_pages_region g (size / g) t iova paddr t2 hmap
    have h0 : pt_lookup t2 iova = some paddr := by
      have := hreg 0 (Nat.pos_of_ne_zero hn)
      simpa using this
    have hclear := unmap_pages_clears_start g (size / g) t2 iova paddr hn h0
    have hbytes := unmap_pages_bytes g hg (size / g) t2 iova paddr hreg
    have hiova : g * (iova / g) = iova := Nat.mul_div_cancel' (Nat.dvd_of_mod_eq_zero hi)
    constructor
    · simp only [pt_unmap, if_neg h1, if_pos (⟨hi, hs, hnz⟩ : iova % g = 0 ∧ size % g = 0 ∧ size ≠ 0)]
      rw [hbytes, hd]
    · simp only [pt_unmap, if_neg h1, if_pos (⟨hi, hs, hnz⟩ : iova % g = 0 ∧ size % g = 0 ∧ size ≠ 0)]
      unfold pt_iova_to_phys
      rw [hiova, hclear]
  · rw [if_neg h1, if_neg h2] at hmap
    cases hmap

/-- Concrete instantiation of map_unmap_roundtrip: mapping two 4 KiB pages
at iova 0x1000 to phys 0x2000 and unmapping the same range removes
exactly 8192 bytes and leaves iova 0x1000 unmapped. -/
theorem map_unmap_roundtrip_witness :
    (pt_unmap 4096 [(8192, 12288), (4096, 8192)] 4096 8192).1 = 8192 ∧
    pt_iova_to_phys 4096 (pt_unmap 4096 [(8192, 12288), (4096, 8192)] 4096 8192).2.1 4096 = none :=
  map_unmap_roundtrip 4096 [] 4096 8192 8192 0 [(8192, 12288), (4096, 8192)] (by rfl)

/-- Translation over a mapped region: shared between the translation
claim and the map_sg claim. -/
theorem pt_iova_to_phys_region (g : Nat) (t : pgtable_mem) (iova paddr size k : Nat)
    (hg : 0 < g) (hi : iova % g = 0)
    (hreg : ∀ i, g * i < size → pt_lookup t (iova + g * i) = some (paddr + g * i))
    (hk : k < size) :
    pt_iova_to_phys g t (iova + k) = some (paddr + k) := by
  obtain ⟨m, hm⟩ : g ∣ iova := Nat.dvd_of_mod_eq_zero hi
  have hdiv : (iova + k) / g = m + k / g := by rw [hm]; exact Nat.mul_add_div hg m k
  have hmod : (iova + k) % g = k % g := by rw [hm]; exact Nat.mul_add_mod g m k
  have hle : g * (k / g) < size := by
    refine lt_of_le_of_lt ?_ hk
    rw [Nat.mul_comm]
    exact Nat.div_mul_le_self k g
  have hlook := hreg (k / g) hle
  unfold pt_iova_to_phys
  rw [hdiv, Nat.mul_add, ← hm, hlook]
  have hdm := Nat.div_add_mod k g
  rw [hmod]
  show some (paddr + g * (k / g) + k % g) = some (paddr + k)
  exact congrArg some (by omega)

/-- Claim C4: for a currently mapped region (iova, paddr, size) and any
offset k < size, iova_to_phys (iova + k) walks the current table and
returns paddr + k. -/
theorem iova_to_phys_translation (g : Nat) (t : pgtable_mem) (iova paddr size k : Nat)
    (hg : 0 < g) (hi : iova % g = 0)
    (hreg : ∀ i, g * i < size → pt_lookup t (iova + g * i) = some (paddr + g * i))
    (hk : k < size) :
    pt_iova_to_phys g t (iova + k) = some (paddr + k) :=
  pt_iova_to_phys_region g t iova paddr size k hg hi hreg hk

/-- Concrete instantiation of iova_to_phys_translation: with pages 0x1000
and 0x2000 mapped to 0x2000 and 0x3000, iova 0x1000 + 0x1100 translates to
0x2000 + 0x1100. -/
theorem iova_to_phys_translation_witness :
    pt_iova_to_phys 4096 [(8192, 12288), (4096, 8192)] (4096 + 4352) = some (8192 + 4352) :=
  iova_to_phys_translation 4096 [(8192, 12288), (4096, 8192)] 4096 8192 8192 4352
    (by decide) (by decide)
    (by
      intro i hi
      have h2 : i < 2 := by omega
      interval_cases i <;> decide)
    (by decide)

/-- pt_map never disturbs an entry that is already present. -/
theorem pt_map_preserves_some (g : Nat) (t : pgtable_mem) (iova paddr size prot : Nat)
    (t2 : pgtable_mem) (k v : Nat) (hk : pt_lookup t k = some v)
    (hm : pt_map g t iova paddr size prot = Except.ok t2) : pt_lookup t2 k = some v := by
  unfold pt_map at hm
  by_cases h1 : g = 0
  · rw [if_pos h1] at hm
    cases hm
  by_cases h2 : iova % g = 0 ∧ paddr % g = 0 ∧ size % g = 0 ∧ size ≠ 0
  · rw [if_neg h1, if_pos h2] at hm
    exact map_pages_preserves_some g (size / g) t iova paddr t2 k v hk hm
  · rw [if_neg h1, if_neg h2] at hm
    cases hm

/-- A successful pt_map implies a positive granule, an aligned iova, and a
fully mapped region in the resulting table. -/
theorem pt_map_ok_facts (g : Nat) (t : pgtable_mem) (iova paddr size prot : Nat)
    (t2 : pgtable_mem) (hm : pt_map g t iova paddr size prot = Except.ok t2) :
    0 < g ∧ iova % g = 0 ∧
    ∀ i, g * i < size → pt_lookup t2 (iova + g * i) = some (paddr + g * i) := by
  unfold pt_map at hm
  by_cases h1 : g = 0
  · rw [if_pos h1] at hm
    cases hm
  by_cases h2 : iova % g = 0 ∧ paddr % g = 0 ∧ size % g = 0 ∧ size ≠ 0
  · rw [if_neg h1, if_pos h2] at hm
    obtain ⟨hi, hp, hs, hnz⟩ := h2
    have hg : 0 < g := Nat.pos_of_ne_zero h1
    refine ⟨hg, hi, ?_⟩
    intro i hlt
    have hd : g * (size / g) = size := Nat.mul_div_cancel' (Nat.dvd_of_mod_eq_zero hs)
    have hin : i < size / g := by
      by_contra hge
      push_neg at hge
      have := Nat.mul_le_mul_left g hge
      omega
    exact map_pages_region g (size / g) t iova paddr t2 hm i hin
  · rw [if_neg h1, if_neg h2] at hm
    cases hm

/-- A successful run of scatter-list segments never disturbs an entry
that is already present. -/
theorem map_segs_ok_preserves_some (g prot : Nat) (segs : List (Nat × Nat)) :
    ∀ t iova t2 k v, pt_lookup t k = some v →
      map_segs_ok g t iova prot segs = some t2 → pt_lookup t2 k = some v := by
  induction segs with
  | nil =>
    intro t iova t2 k v hk hok
    cases hok
    exact hk
  | cons hd rest ih =>
    intro t iova t2 k v hk hok
    obtain ⟨paddr, len⟩ := hd
    unfold map_segs_ok at hok
    cases hm : pt_map g t iova paddr len prot with
    | error e => rw [hm] at hok; cases hok
    | ok t3 =>
      rw [hm] at hok
      exact ih t3 (iova + len) t2 k v
        (pt_map_preserves_some g t iova paddr len prot t3 k v hk hm) hok

/-- The behavior of map_sg on a scatter list whose named leading segments
all map successfully and whose next segment fails: the error is returned,
the table keeps exactly the successful leading segments, the reported
out-parameter is their byte count, and those segments translate
correctly in the resulting table. -/
theorem map_sg_aux (g prot : Nat) (pre : List (Nat × Nat)) :
    ∀ t iova rest bpa blen t1 e,
      map_segs_ok g t iova prot pre = some t1 →
      pt_map g t1 (iova + sum_lens pre) bpa blen prot = Except.error e →
      map_sg g t iova prot (pre ++ (bpa, blen) :: rest) = (e, t1, sum_lens pre) ∧
      ∀ s ∈ seg_positions iova pre, ∀ k, k < s.2.2 →
        pt_iova_to_phys g t1 (s.1 + k) = some (s.2.1 + k) := by
  induction pre with
  | nil =>
    intro t iova rest bpa blen t1 e hpre hbad
    cases hpre
    simp only [sum_lens, Nat.add_zero] at hbad
    constructor
    · show map_sg g t iova prot ((bpa, blen) :: rest) = (e, t, 0)
      unfold map_sg
      rw [hbad]
    · intro s hs
      simp [seg_positions] at hs
  | cons hd pre2 ih =>
    intro t iova rest bpa blen t1 e hpre hbad
    obtain ⟨pa, len⟩ := hd
    unfold map_segs_ok at hpre
    cases hm : pt_map g t iova pa len prot with
    | error e2 => rw [hm] at hpre; cases hpre
    | ok t2 =>
      rw [hm] at hpre
      have hbad2 : pt_map g t1 (iova + len + sum_lens pre2) bpa blen prot = Except.error e := by
        have harith : iova + len + sum_lens pre2 = iova + sum_lens ((pa, len) :: pre2) := by
          simp [sum_lens]
          omega
        rw [harith]
        exact hbad
      obtain ⟨ih1, ih2⟩ := ih t2 (iova + len) rest bpa blen t1 e hpre hbad2
      have he : e < 0 := pt_map_error_neg g t1 (iova + len + sum_lens pre2) bpa blen prot e hbad2
      constructor
      · show map_sg g t iova prot ((pa, len) :: (pre2 ++ (bpa, blen) :: rest)) = _
        unfold map_sg
        rw [hm]
        simp only [ih1, he, if_pos, sum_lens]
      · intro s hs
        simp only [seg_positions, List.mem_cons] at hs
        rcases hs with hs | hs
        · subst hs
          intro k hk
          obtain ⟨hg, hi, hreg⟩ := pt_map_ok_facts g t iova pa len prot t2 hm
          have hreg1 : ∀ i, g * i < len → pt_lookup t1 (iova + g * i) = some (pa + g * i) :=
            fun i hilt => map_segs_ok_preserves_some g prot pre2 t2 (iova + len) t1 _ _
              (hreg i hilt) hpre
          exact pt_iova_to_phys_region g t1 iova pa len k hg hi hreg1 hk
        · exact ih2 s hs

/-- Claim C5: when map_sg fails partway through its scatter list, the
already-mapped segments remain mapped with no rollback, the call returns
the negative error, the exact byte count of the completed segments is
reported through the size out-parameter, and the completed segments still
answer iova_to_phys correctly afterward. -/
theorem map_sg_partial_failure (g : Nat) (t : pgtable_mem) (iova prot : Nat)
    (pre rest : List (Nat × Nat)) (bpa blen : Nat) (t1 : pgtable_mem) (e : Int)
    (hpre : map_segs_ok g t iova prot pre = some t1)
    (hbad : pt_map g t1 (iova + sum_lens pre) bpa blen prot = Except.error e) :
    map_sg g t iova prot (pre ++ (bpa, blen) :: rest) = (e, t1, sum_lens pre) ∧
    e < 0 ∧
    ∀ s ∈ seg_positions iova pre, ∀ k, k < s.2.2 →
      pt_iova_to_phys g t1 (s.1 + k) = some (s.2.1 + k) := by
  obtain ⟨h1, h2⟩ := map_sg_aux g prot pre t iova rest bpa blen t1 e hpre hbad
  exact ⟨h1, pt_map_error_neg g t1 (iova + sum_lens pre) bpa blen prot e hbad, h2⟩

/-- Concrete instantiation of map_sg_partial_failure: a five-segment
scatter list whose third segment is misaligned maps its first two
segments, returns -22 with out-size 8192 (the two completed segments),
and the first completed segment still translates correctly. -/
theorem map_sg_partial_failure_witness :
    map_sg 4096 [] 4096 0
        ([(16384, 4096), (32768, 4096)] ++ (40960, 5) :: [(49152, 4096), (53248, 4096)]) =
      (-22, [(8192, 32768), (4096, 16384)], 8192) ∧
    pt_iova_to_phys 4096 [(8192, 32768), (4096, 16384)] (4096 + 100) = some (16384 + 100) := by
  have h := map_sg_partial_failure 4096 [] 4096 0 [(16384, 4096), (32768, 4096)]
    [(49152, 4096), (53248, 4096)] 40960 5 [(8192, 32768), (4096, 16384)] (-22)
    (by rfl) (by rfl)
  refine ⟨h.1, ?_⟩
  have hmem : ((4096 : Nat), (16384 : Nat), (4096 : Nat)) ∈
      seg_positions 4096 [(16384, 4096), (32768, 4096)] := by
    simp [seg_positions]
  exact h.2.2 (4096, 16384, 4096) hmem 100 (by decide)

/-! ## Allocation (alloc_io_pgtable_ops, declared at io-pgtable.h line 190)

The dispatcher io-pgtable.c and the per-format allocators are registered
against this header but are not part of it, so allocation is modelled from
the specification. -/

/-- Modelled from the spec: the quirk flags each format implementation can
honor (spec section 4.4; per-format allocators missing from the source).
none means the format tag is not registered at all. -/
def fmt_supported_quirks (fmt : Nat) : Option Nat :=
  if fmt = ARM_32_LPAE_S1 ∨ fmt = ARM_64_LPAE_S1 then
    some (IO_PGTABLE_QUIRK_ARM_NS ||| IO_PGTABLE_QUIRK_NO_DMA |||
      IO_PGTABLE_QUIRK_QSMMUV500_NON_SHAREABLE |||
      IO_PGTABLE_QUIRK_QCOM_USE_UPSTREAM_HINT ||| IO_PGTABLE_QUIRK_QCOM_USE_LLC_NWA)
  else if fmt = ARM_32_LPAE_S2 ∨ fmt = ARM_64_LPAE_S2 then
    some IO_PGTABLE_QUIRK_NO_DMA
  else if fmt = ARM_V7S then
    some (IO_PGTABLE_QUIRK_ARM_NS ||| IO_PGTABLE_QUIRK_NO_PERMS |||
      IO_PGTABLE_QUIRK_TLBI_ON_MAP ||| IO_PGTABLE_QUIRK_ARM_MTK_4GB |||
      IO_PGTABLE_QUIRK_NO_DMA)
  else if fmt = ARM_V8L_FAST then
    some IO_PGTABLE_QUIRK_NO_DMA
  else none

/-- Modelled from the spec: the page-size bitmap each format actually
supports (4K/2M/1G for the long-descriptor formats, 4K/64K/1M/16M for the
short-descriptor format, 4K for the fast variant). -/
def fmt_pgsizes (fmt : Nat) : Nat :=
  if fmt = ARM_V7S then 4096 ||| 65536 ||| 1048576 ||| 16777216
  else if fmt = ARM_V8L_FAST then 4096
  else 4096 ||| 2097152 ||| 1073741824

/-- Modelled from the spec: the maximum input-address width each format
supports. -/
def fmt_max_ias (fmt : Nat) : Nat :=
  if fmt = ARM_32_LPAE_S1 ∨ fmt = ARM_32_LPAE_S2 ∨ fmt = ARM_V7S then 32
  else if fmt = ARM_V8L_FAST then 39
  else 48

/-- Modelled from the spec: the maximum output-address width each format
supports. -/
def fmt_max_oas (fmt : Nat) : Nat :=
  if fmt = ARM_V7S then 40 else 48

/-- Modelled from the spec: the format-specific payload variant a format
allocator populates (register values are computed by the missing
per-format code; zero stands in for them). -/
def mk_payload (fmt : Nat) : fmt_payload :=
  if fmt = ARM_32_LPAE_S1 ∨ fmt = ARM_64_LPAE_S1 then
    fmt_payload.arm_lpae_s1_cfg ⟨0, 0, 0, 0, 0⟩
  else if fmt = ARM_32_LPAE_S2 ∨ fmt = ARM_64_LPAE_S2 then
    fmt_payload.arm_lpae_s2_cfg ⟨0, 0⟩
  else if fmt = ARM_V7S then
    fmt_payload.arm_v7s_cfg ⟨0, 0, 0, 0, 0⟩
  else
    fmt_payload.av8l_fast_cfg ⟨0, 0, 0, 0, 0, 0⟩

/-- Modelled from the spec: alloc_io_pgtable_ops. Validates the quirk set,
address widths and page-size bitmap against the chosen format; on success
narrows the caller's pgsize_bitmap in place, fills the format-specific
payload, and returns a handle carrying the format tag, the cookie, an
owned copy of the narrowed configuration and the fully populated operation
set. On any failure it returns no handle and leaves the caller's
configuration untouched. The pair returned is (allocated handle or none,
the caller's configuration record after the call). First, the validation
predicate: the format is registered, every requested quirk is honored by
the format, the address widths fit, and the requested page sizes intersect
the format's supported set. -/
def alloc_ok (fmt : Nat) (cfg : io_pgtable_cfg) : Prop :=
  (fmt_supported_quirks fmt).isSome = true ∧
  cfg.quirks &&& (fmt_supported_quirks fmt).getD 0 = cfg.quirks ∧
  cfg.ias ≤ fmt_max_ias fmt ∧ cfg.oas ≤ fmt_max_oas fmt ∧
  cfg.pgsize_bitmap &&& fmt_pgsizes fmt ≠ 0

instance alloc_ok_decidable (fmt : Nat) (cfg : io_pgtable_cfg) :
    Decidable (alloc_ok fmt cfg) := by
  unfold alloc_ok
  infer_instance

/-- Modelled from the spec: the allocation entry point itself (see the
comment on alloc_ok for the contract it implements). -/
def alloc_io_pgtable_ops (fmt : Nat) (cfg : io_pgtable_cfg) (cookie : Nat) :
    Option io_pgtable × io_pgtable_cfg :=
  if alloc_ok fmt cfg then
    (some { fmt := fmt, cookie := cookie,
            cfg := { cfg with
              pgsize_bitmap := cfg.pgsize_bitmap &&& fmt_pgsizes fmt,
              payload := mk_payload fmt },
            ops := some fmt },
     { cfg with
       pgsize_bitmap := cfg.pgsize_bitmap &&& fmt_pgsizes fmt,
       payload := mk_payload fmt })
  else (none, cfg)

/-- Claim C2: alloc_io_pgtable_ops either succeeds, narrowing the caller's
pgsize_bitmap in place to the actually supported subset and returning a
handle whose operation set is fully populated, or fails returning no
handle with the caller's configuration untouched; and requesting a quirk
flag the chosen format cannot honor (or an unregistered format) always
fails allocation. -/
theorem alloc_validates_and_narrows (fmt : Nat) (cfg : io_pgtable_cfg) (cookie : Nat) :
    (∀ h cfg2, alloc_io_pgtable_ops fmt cfg cookie = (some h, cfg2) →
      h.fmt = fmt ∧ h.cookie = cookie ∧ h.cfg = cfg2 ∧ h.ops ≠ none ∧
      cfg2.pgsize_bitmap ≠ 0 ∧
      (∀ b, cfg2.pgsize_bitmap.testBit b = true →
        cfg.pgsize_bitmap.testBit b = true ∧ (fmt_pgsizes fmt).testBit b = true) ∧
      cfg2.quirks = cfg.quirks ∧ cfg2.ias = cfg.ias ∧ cfg2.oas = cfg.oas) ∧
    ((alloc_io_pgtable_ops fmt cfg cookie).1 = none →
      (alloc_io_pgtable_ops fmt cfg cookie).2 = cfg) ∧
    (fmt_supported_quirks fmt = none → (alloc_io_pgtable_ops fmt cfg cookie).1 = none) ∧
    (∀ qmask b, fmt_supported_quirks fmt = some qmask →
      cfg.quirks.testBit b = true → qmask.testBit b = false →
      (alloc_io_pgtable_ops fmt cfg cookie).1 = none) := by
  refine ⟨?_, ?_, ?_, ?_⟩
  · intro h cfg2 halloc
    unfold alloc_io_pgtable_ops at halloc
    by_cases hcond : alloc_ok fmt cfg
    · rw [if_pos hcond] at halloc
      injection halloc with hh hc
      injection hh with hh2
      subst hh2
      subst hc
      obtain ⟨hreg, hqq, hias, hoas, hpg⟩ := hcond
      refine ⟨rfl, rfl, rfl, by simp, hpg, ?_, rfl, rfl, rfl⟩
      intro b hb
      have hb2 : (cfg.pgsize_bitmap &&& fmt_pgsizes fmt).testBit b = true := hb
      rw [Nat.testBit_land] at hb2
      exact Bool.and_eq_true _ _ |>.mp hb2
    · rw [if_neg hcond] at halloc
      injection halloc with hh hc
      cases hh
  · intro hnone
    unfold alloc_io_pgtable_ops at hnone ⊢
    by_cases hcond : alloc_ok fmt cfg
    · rw [if_pos hcond] at hnone
      simp at hnone
    · rw [if_neg hcond]
  · intro hq
    unfold alloc_io_pgtable_ops
    have hne : ¬ alloc_ok fmt cfg := by
      intro hcond
      unfold alloc_ok at hcond
      rw [hq] at hcond
      simp at hcond
    rw [if_neg hne]
  · intro qmask b hq hqb hmb
    unfold alloc_io_pgtable_ops
    have hne : ¬ alloc_ok fmt cfg := by
      intro hcond
      unfold alloc_ok at hcond
      obtain ⟨hreg2, hqq, hrest⟩ := hcond
      rw [hq] at hqq
      simp only [Option.getD_some] at hqq
      have hbit := congrArg (fun x => Nat.testBit x b) hqq
      simp only [Nat.testBit_land] at hbit
      rw [hqb, hmb] at hbit
      simp at hbit
    rw [if_neg hne]

/-- A concrete caller configuration for exercising allocation: requested
page sizes 4K and 8K (8K is not offered by the long-descriptor formats). -/
def c2_cfg : io_pgtable_cfg :=
  { quirks := 0, pgsize_bitmap := 12288, ias := 48, oas := 48,
    tlb := some (), iommu_dev := 0, iova_base := 0, iova_end := 0,
    payload := fmt_payload.arm_lpae_s1_cfg ⟨0, 0, 0, 0, 0⟩ }

/-- The configuration c2_cfg after allocation for ARM_64_LPAE_S1:
pgsize_bitmap narrowed to 4K, payload populated. -/
def c2_cfg_out : io_pgtable_cfg :=
  { quirks := 0, pgsize_bitmap := 4096, ias := 48, oas := 48,
    tlb := some (), iommu_dev := 0, iova_base := 0, iova_end := 0,
    payload := fmt_payload.arm_lpae_s1_cfg ⟨0, 0, 0, 0, 0⟩ }

/-- The handle produced by allocating c2_cfg for ARM_64_LPAE_S1 with
cookie 5. -/
def c2_handle : io_pgtable :=
  { fmt := ARM_64_LPAE_S1, cookie := 5, cfg := c2_cfg_out, ops := some ARM_64_LPAE_S1 }

/-- A configuration requesting the stage-1-only quirk IO_PGTABLE_QUIRK_ARM_NS. -/
def c2_quirky_cfg : io_pgtable_cfg :=
  { quirks := IO_PGTABLE_QUIRK_ARM_NS, pgsize_bitmap := 4096, ias := 32, oas := 32,
    tlb := some (), iommu_dev := 0, iova_base := 0, iova_end := 0,
    payload := fmt_payload.arm_lpae_s2_cfg ⟨0, 0⟩ }

/-- Concrete instantiation of alloc_validates_and_narrows: allocation for
ARM_64_LPAE_S1 succeeds with the narrowed configuration copied into the
handle, and a stage-2 allocation requesting the stage-1-only quirk
IO_PGTABLE_QUIRK_ARM_NS fails with no handle. -/
theorem alloc_validates_and_narrows_witness :
    c2_handle.fmt = ARM_64_LPAE_S1 ∧ c2_handle.cookie = 5 ∧
    c2_handle.cfg = c2_cfg_out ∧ c2_handle.ops ≠ none ∧
    c2_cfg_out.pgsize_bitmap ≠ 0 ∧ c2_cfg_out.quirks = c2_cfg.quirks ∧
    (alloc_io_pgtable_ops ARM_32_LPAE_S2 c2_quirky_cfg 5).1 = none := by
  have hmain := alloc_validates_and_narrows ARM_64_LPAE_S1 c2_cfg 5
  have hs := hmain.1 c2_handle c2_cfg_out (by decide)
  refine ⟨hs.1, hs.2.1, hs.2.2.1, hs.2.2.2.1, hs.2.2.2.2.1, hs.2.2.2.2.2.2.1, ?_⟩
  exact (alloc_validates_and_narrows ARM_32_LPAE_S2 c2_quirky_cfg 5).2.2.2
    IO_PGTABLE_QUIRK_NO_DMA 0 (by decide) (by decide) (by decide)

/-! ## The payload-variant invariant -/

/-- Whether a payload variant is the one matching a format tag:
arm_lpae_s1_cfg for the stage-1 long-descriptor tags, arm_lpae_s2_cfg for
the stage-2 tags, arm_v7s_cfg for ARM_V7S, av8l_fast_cfg for
ARM_V8L_FAST. -/
def payload_matches (fmt : Nat) : fmt_payload → Bool
  | .arm_lpae_s1_cfg _ => fmt == ARM_32_LPAE_S1 || fmt == ARM_64_LPAE_S1
  | .arm_lpae_s2_cfg _ => fmt == ARM_32_LPAE_S2 || fmt == ARM_64_LPAE_S2
  | .arm_v7s_cfg _ => fmt == ARM_V7S
  | .av8l_fast_cfg _ => fmt == ARM_V8L_FAST

/-- The payload a format allocator populates matches its own format tag,
for every registered tag. -/
theorem mk_payload_matches (fmt : Nat)
    (hreg : (fmt_supported_quirks fmt).isSome = true) :
    payload_matches fmt (mk_payload fmt) = true := by
  by_cases h1 : fmt = ARM_32_LPAE_S1 ∨ fmt = ARM_64_LPAE_S1
  · unfold mk_payload
    rw [if_pos h1]
    show (fmt == ARM_32_LPAE_S1 || fmt == ARM_64_LPAE_S1) = true
    rcases h1 with h | h <;> simp [h]
  by_cases h2 : fmt = ARM_32_LPAE_S2 ∨ fmt = ARM_64_LPAE_S2
  · unfold mk_payload
    rw [if_neg h1, if_pos h2]
    show (fmt == ARM_32_LPAE_S2 || fmt == ARM_64_LPAE_S2) = true
    rcases h2 with h | h <;> simp [h]
  by_cases h3 : fmt = ARM_V7S
  · unfold mk_payload
    rw [if_neg h1, if_neg h2, if_pos h3]
    show (fmt == ARM_V7S) = true
    simp [h3]
  · unfold mk_payload
    rw [if_neg h1, if_neg h2, if_neg h3]
    unfold fmt_supported_quirks at hreg
    rw [if_neg h1, if_neg h2, if_neg h3] at hreg
    by_cases h4 : fmt = ARM_V8L_FAST
    · show (fmt == ARM_V8L_FAST) = true
      simp [h4]
    · rw [if_neg h4] at hreg
      simp at hreg

/-- A live handle together with its page-table memory and granule: the
operation set dispatches through the handle and mutates only the table
memory, never the handle. -/
structure pgtable_sys where
  iop : io_pgtable
  granule : Nat
  table : pgtable_mem

/-- The map operation at the handle level. -/
def sys_map (s : pgtable_sys) (iova paddr size prot : Nat) :
    Except Int Unit × pgtable_sys :=
  match pt_map s.granule s.table iova paddr size prot with
  | Except.error e => (Except.error e, s)
  | Except.ok t2 => (Except.ok (), { s with table := t2 })

/-- The unmap operation at the handle level. -/
def sys_unmap (s : pgtable_sys) (iova size : Nat) :
    Nat × pgtable_sys × List pt_event :=
  let r := pt_unmap s.granule s.table iova size
  (r.1, { s with table := r.2.1 }, r.2.2)

/-- The iova_to_phys operation at the handle level. -/
def sys_iova_to_phys (s : pgtable_sys) (iova : Nat) : Option Nat :=
  pt_iova_to_phys s.granule s.table iova

/-- sys_map leaves the handle (format tag, cookie, configuration)
untouched. -/
theorem sys_map_frame (s : pgtable_sys) (iova paddr size prot : Nat) :
    ((sys_map s iova paddr size prot).2).iop = s.iop := by
  unfold sys_map
  cases pt_map s.granule s.table iova paddr size prot <;> rfl

/-- sys_unmap leaves the handle untouched. -/
theorem sys_unmap_frame (s : pgtable_sys) (iova size : Nat) :
    ((sys_unmap s iova size).2.1).iop = s.iop := rfl

/-- Claim C7: a successful allocation stores in the handle (and reports to
the caller) exactly the payload variant matching the requested format tag,
and the operations on a handle never change the handle, so the
tag-variant correspondence is preserved by every operation. -/
theorem payload_variant_matches_fmt :
    (∀ fmt cfg cookie h cfg2,
      alloc_io_pgtable_ops fmt cfg cookie = (some h, cfg2) →
      payload_matches h.fmt h.cfg.payload = true ∧
      payload_matches fmt cfg2.payload = true) ∧
    (∀ s iova paddr size prot, ((sys_map s iova paddr size prot).2).iop = s.iop) ∧
    (∀ s iova size, ((sys_unmap s iova size).2.1).iop = s.iop) ∧
    (∀ s iova paddr size prot,
      payload_matches s.iop.fmt s.iop.cfg.payload = true →
      payload_matches ((sys_map s iova paddr size prot).2).iop.fmt
        ((sys_map s iova paddr size prot).2).iop.cfg.payload = true) ∧
    (∀ s iova size,
      payload_matches s.iop.fmt s.iop.cfg.payload = true →
      payload_matches ((sys_unmap s iova size).2.1).iop.fmt
        ((sys_unmap s iova size).2.1).iop.cfg.payload = true) := by
  refine ⟨?_, sys_map_frame, sys_unmap_frame, ?_, ?_⟩
  · intro fmt cfg cookie h cfg2 halloc
    unfold alloc_io_pgtable_ops at halloc
    by_cases hcond : alloc_ok fmt cfg
    · rw [if_pos hcond] at halloc
      injection halloc with hh hc
      injection hh with hh2
      subst hh2
      subst hc
      obtain ⟨hreg, hrest⟩ := hcond
      exact ⟨mk_payload_matches fmt hreg, mk_payload_matches fmt hreg⟩
    · rw [if_neg hcond] at halloc
      injection halloc with hh hc
      cases hh
  · intro s iova paddr size prot hm
    rw [sys_map_frame]
    exact hm
  · intro s iova size hm
    rw [sys_unmap_frame]
    exact hm

/-- Concrete instantiation of payload_variant_matches_fmt: the handle
allocated for ARM_64_LPAE_S1 carries the arm_lpae_s1_cfg variant, and a
map call on it preserves the correspondence. -/
theorem payload_variant_matches_fmt_witness :
    payload_matches c2_handle.fmt c2_handle.cfg.payload = true ∧
    payload_matches ((sys_map ⟨c2_handle, 4096, []⟩ 4096 8192 4096 0).2).iop.fmt
      ((sys_map ⟨c2_handle, 4096, []⟩ 4096 8192 4096 0).2).iop.cfg.payload = true :=
  ⟨(payload_variant_matches_fmt.1 ARM_64_LPAE_S1 c2_cfg 5 c2_handle c2_cfg_out
      (by decide)).1,
   payload_variant_matches_fmt.2.2.2.1 ⟨c2_handle, 4096, []⟩ 4096 8192 4096 0 (by decide)⟩

/-! ## Ownership of the configuration copy -/

/-- The caller's world after allocation: the configuration record the
caller owns and the handle the allocator returned. -/
structure caller_world where
  caller_cfg : io_pgtable_cfg
  handle : io_pgtable

/-- The caller rewriting its own configuration record (in any way m)
after allocation. -/
def mutate_caller_cfg (w : caller_world) (m : io_pgtable_cfg → io_pgtable_cfg) :
    caller_world :=
  { w with caller_cfg := m w.caller_cfg }

/-- Claim C8: the handle holds an owned by-value copy of the (narrowed)
configuration taken at allocation time: however the caller rewrites its
own configuration record afterwards, the handle, its stored
configuration, and the behavior of every operation dispatched through the
handle are unchanged. -/
theorem handle_cfg_owned_copy (fmt : Nat) (cfg : io_pgtable_cfg) (cookie : Nat)
    (h : io_pgtable) (cfg2 : io_pgtable_cfg) (m : io_pgtable_cfg → io_pgtable_cfg)
    (halloc : alloc_io_pgtable_ops fmt cfg cookie = (some h, cfg2)) :
    (mutate_caller_cfg ⟨cfg2, h⟩ m).handle = h ∧
    (mutate_caller_cfg ⟨cfg2, h⟩ m).handle.cfg = cfg2 ∧
    (∀ gran t iova paddr size prot,
      sys_map ⟨(mutate_caller_cfg ⟨cfg2, h⟩ m).handle, gran, t⟩ iova paddr size prot =
      sys_map ⟨h, gran, t⟩ iova paddr size prot) ∧
    (∀ gran t iova size,
      sys_unmap ⟨(mutate_caller_cfg ⟨cfg2, h⟩ m).handle, gran, t⟩ iova size =
      sys_unmap ⟨h, gran, t⟩ iova size) ∧
    (∀ gran t iova,
      sys_iova_to_phys ⟨(mutate_caller_cfg ⟨cfg2, h⟩ m).handle, gran, t⟩ iova =
      sys_iova_to_phys ⟨h, gran, t⟩ iova) := by
  have hcfg : h.cfg = cfg2 := by
    unfold alloc_io_pgtable_ops at halloc
    by_cases hcond : alloc_ok fmt cfg
    · rw [if_pos hcond] at halloc
      injection halloc with hh hc
      injection hh with hh2
      subst hh2
      subst hc
      rfl
    · rw [if_neg hcond] at halloc
      injection halloc with hh hc
      cases hh
  exact ⟨rfl, hcfg, fun _ _ _ _ _ _ => rfl, fun _ _ _ _ => rfl, fun _ _ _ => rfl⟩

/-- Concrete instantiation of handle_cfg_owned_copy: after the caller
overwrites its record's quirks field, the handle and its stored
configuration are unchanged. -/
theorem handle_cfg_owned_copy_witness :
    (mutate_caller_cfg ⟨c2_cfg_out, c2_handle⟩
      (fun c => { c with quirks := 123 })).handle = c2_handle ∧
    (mutate_caller_cfg ⟨c2_cfg_out, c2_handle⟩
      (fun c => { c with quirks := 123 })).handle.cfg = c2_cfg_out := by
  have h := handle_cfg_owned_copy ARM_64_LPAE_S1 c2_cfg 5 c2_handle c2_cfg_out
    (fun c => { c with quirks := 123 }) (by decide)
  exact ⟨h.1, h.2.1⟩

/-! ## Recovering the handle from the ops pointer -/

/-- The address of the ops member of a struct io_pgtable whose own address
is base, where off is the byte offset of the member within the struct
(offsetof(struct io_pgtable, ops)). -/
def io_pgtable_ops_addr (base off : Nat) : Nat := base + off

/-- io_pgtable_ops_to_pgtable(x) is container_of(x, struct io_pgtable,
ops): the pointer x to the ops member moved back by the member's offset. -/
def io_pgtable_ops_to_pgtable (x off : Nat) : Nat := x - off

/-- Claim C10: io_pgtable_ops_to_pgtable applied to the address of the
ops member of any io_pgtable recovers the address of the structure
itself, so the format implementation recovers the full handle stored
there from the ops pointer the caller passes. -/
theorem ops_to_pgtable_inverse (mem : Nat → Option io_pgtable) (base off : Nat)
    (p : io_pgtable) (hmem : mem base = some p) :
    io_pgtable_ops_to_pgtable (io_pgtable_ops_addr base off) off = base ∧
    mem (io_pgtable_ops_to_pgtable (io_pgtable_ops_addr base off) off) = some p := by
  have h1 : io_pgtable_ops_to_pgtable (io_pgtable_ops_addr base off) off = base := by
    unfold io_pgtable_ops_to_pgtable io_pgtable_ops_addr
    omega
  exact ⟨h1, by rw [h1]; exact hmem⟩

/-- A one-structure memory for exercising the container_of inverse. -/
def c10_mem : Nat → Option io_pgtable :=
  fun a => if a = 64 then some sample_iop else none

/-- Concrete instantiation of ops_to_pgtable_inverse at base address 64
and member offset 120. -/
theorem ops_to_pgtable_inverse_witness :
    io_pgtable_ops_to_pgtable (io_pgtable_ops_addr 64 120) 120 = 64 ∧
    c10_mem (io_pgtable_ops_to_pgtable (io_pgtable_ops_addr 64 120) 120) =
      some sample_iop :=
  ops_to_pgtable_inverse c10_mem 64 120 sample_iop (by decide)

end IoPgtableSpec
